import Mathlib

/-!
Shallow embedding of the split-allocation and ledger-reconciliation core of
the Jasmine receipt tracker (`src/app.py`).  Monetary amounts and percents
are modelled as rationals; Python's `round(x, 2)` is modelled as `round2`
(round-half-up at two decimal places, via Mathlib's `round`).
-/

namespace Jasmine

/-- `round(x, 2)` — rounding a value to two decimal places, as used
throughout `app.py` for amounts and percents. -/
def round2 (x : ℚ) : ℚ := (round (x * 100) : ℚ) / 100

/-- `x` is a whole number of cents, i.e. a value with at most two decimal
places (the form every currency amount or percent entered in the UI takes). -/
def IsCents (x : ℚ) : Prop := ∃ k : ℤ, x * 100 = (k : ℚ)

theorem isCents_iff {x : ℚ} : IsCents x ↔ ∃ k : ℤ, x = (k : ℚ) / 100 := by
  constructor
  · rintro ⟨k, hk⟩
    exact ⟨k, by rw [← hk]; ring⟩
  · rintro ⟨k, rfl⟩
    exact ⟨k, by ring⟩

theorem isCents_zero : IsCents 0 := ⟨0, by norm_num⟩

theorem isCents_add {x y : ℚ} (hx : IsCents x) (hy : IsCents y) :
    IsCents (x + y) := by
  obtain ⟨k, hk⟩ := hx
  obtain ⟨m, hm⟩ := hy
  exact ⟨k + m, by push_cast; rw [add_mul, hk, hm]⟩

theorem isCents_neg {x : ℚ} (hx : IsCents x) : IsCents (-x) := by
  obtain ⟨k, hk⟩ := hx
  exact ⟨-k, by push_cast; rw [neg_mul, hk]⟩

theorem isCents_sub {x y : ℚ} (hx : IsCents x) (hy : IsCents y) :
    IsCents (x - y) := by
  rw [sub_eq_add_neg]
  exact isCents_add hx (isCents_neg hy)

theorem isCents_nat_mul {x : ℚ} (n : ℕ) (hx : IsCents x) :
    IsCents ((n : ℚ) * x) := by
  obtain ⟨k, hk⟩ := hx
  exact ⟨(n : ℤ) * k, by push_cast; rw [mul_assoc, hk]⟩

theorem isCents_sum {l : List ℚ} (h : ∀ x ∈ l, IsCents x) :
    IsCents l.sum := by
  induction l with
  | nil => simpa using isCents_zero
  | cons a l ih =>
      simp only [List.sum_cons]
      exact isCents_add (h a (by simp)) (ih fun x hx => h x (by simp [hx]))

theorem isCents_round2 (x : ℚ) : IsCents (round2 x) :=
  ⟨round (x * 100), by unfold round2; field_simp⟩

theorem round2_eq_self {x : ℚ} (h : IsCents x) : round2 x = x := by
  obtain ⟨k, hk⟩ := h
  unfold round2
  rw [hk, round_intCast]
  field_simp
  linarith [hk]

theorem round2_add_cents (x : ℚ) {c : ℚ} (hc : IsCents c) :
    round2 (x + c) = round2 x + c := by
  obtain ⟨k, hk⟩ := hc
  unfold round2
  rw [add_mul, hk, round_add_int]
  push_cast
  field_simp
  linarith [hk]

theorem round2_sub_cents (x : ℚ) {c : ℚ} (hc : IsCents c) :
    round2 (x - c) = round2 x - c := by
  have h := round2_add_cents x (isCents_neg hc)
  rw [← sub_eq_add_neg] at h
  rw [h, sub_eq_add_neg]

theorem round2_nonpos {x : ℚ} (h : x ≤ 0) : round2 x ≤ 0 := by
  unfold round2
  have hx : x * 100 ≤ 0 := by nlinarith
  have hr : round (x * 100) ≤ 0 := by
    rw [round_eq]
    have h2 : ⌊(1 : ℚ) / 2⌋ = 0 := by norm_num [Int.floor_eq_iff]
    have h3 : ⌊x * 100 + 1 / 2⌋ ≤ ⌊(1 : ℚ) / 2⌋ := Int.floor_le_floor (by linarith)
    rw [h2] at h3
    exact h3
  have : ((round (x * 100) : ℤ) : ℚ) ≤ 0 := by exact_mod_cast hr
  linarith

/-- Evaluation form of `round2` (Mathlib's `round x = ⌊x + 1/2⌋`). -/
theorem round2_eval (x : ℚ) : round2 x = ((⌊x * 100 + 1 / 2⌋ : ℤ) : ℚ) / 100 := by
  rw [round2, round_eq]

/-! ## The split allocator (`tab_add` split branches of `src/app.py`) -/

/-- Equal-split branch (`app.py` lines 468-479):
`per = round(total / n, 2)`; `amounts = [per] * n`;
`remainder = round(total - sum(amounts), 2)`;
`if amounts: amounts[0] = round(amounts[0] + remainder, 2)`.
The whole computation is guarded by `if total_amount > 0`; otherwise the
splits list stays empty. -/
def equalShares (total : ℚ) (numSplits : ℕ) : List ℚ :=
  if 0 < total then
    let per := round2 (total / (numSplits : ℚ))
    let amounts := List.replicate numSplits per
    let remainder := round2 (total - amounts.sum)
    match amounts with
    | [] => []
    | a0 :: rest => round2 (a0 + remainder) :: rest
  else []

/-- By-amount branch (`app.py` lines 499-521).  `entered` is the list of
session-state amounts for participants `0..n-2` (each widget clamps its value
to `≥ 0`); the last participant's amount is computed:
`prev_sum = round(sum(entered), 2)`; `remaining_val = round(total - prev_sum, 2)`;
`if remaining_val < 0: remaining_val = 0.0`. -/
def byAmountShares (total : ℚ) (entered : List ℚ) : List ℚ :=
  let prevSum := round2 entered.sum
  let remainingVal := round2 (total - prevSum)
  entered ++ [if remainingVal < 0 then 0 else remainingVal]

/-- By-percent branch (`app.py` lines 550-573).  `entered` is the list of
session-state percents for participants `0..n-2` (each widget clamps its
value into `[0, 100]`); the last participant's percent is computed:
`prev_pct = round(sum(entered), 2)`; `remaining_pct = round(100.0 - prev_pct, 2)`;
`if remaining_pct < 0: remaining_pct = 0.0`. -/
def byPercentPcts (entered : List ℚ) : List ℚ :=
  let prevPct := round2 entered.sum
  let remainingPct := round2 (100 - prevPct)
  entered ++ [if remainingPct < 0 then 0 else remainingPct]

/-! ## Currency conversion (`to_myr`, `app.py` lines 223-229) -/

/-- The error message raised by `to_myr` when a rate is missing or zero. -/
def missingRateError (currency : String) : String :=
  "Missing FX rate for " ++ currency ++ "."

/-- `to_myr(amount, currency, rates_base_myr)`: returns `amount` unchanged
for MYR; otherwise looks the currency up in the rate table and raises
`ValueError` (modelled as `Except.error`) if the rate is absent (`None`) or
equals zero, else returns `amount / rate`.  The Python `dict` is modelled as
an association list with `List.lookup`. -/
def to_myr (amount : ℚ) (currency : String) (rates_base_myr : List (String × ℚ)) :
    Except String ℚ :=
  if currency = "MYR" then Except.ok amount
  else
    match rates_base_myr.lookup currency with
    | none => Except.error (missingRateError currency)
    | some rate =>
        if rate = 0 then Except.error (missingRateError currency)
        else Except.ok (amount / rate)

/-! ## Pre-save validation and the save handler (`app.py` lines 599-689) -/

inductive Scope where
  | receipt
  | tax
  | split
deriving DecidableEq

inductive SplitMethod where
  | equal
  | byAmount
  | byPercent
deriving DecidableEq

/-- The inputs the Save button block of `tab_add` reads.
`uploaded` is `uploaded is not None`; `splitGroupName` models the
already-stripped group name (`app.py` line 415); `enteredAmounts` /
`enteredPcts` are the session-state values for participants `0..n-2`
(`st.session_state[key][0:num_splits-1]`); `numSplits` is the
`Number of splits` widget value. -/
structure SaveInput where
  uploaded : Bool
  merchant : String
  amount : ℚ
  scope : Scope
  splitGroupName : String
  splitMethod : SplitMethod
  numSplits : ℕ
  enteredAmounts : List ℚ
  enteredPcts : List ℚ

def errUpload : String := "Please upload a file or take a photo."
def errMerchant : String := "Merchant / Store cannot be empty."
def errAmount : String := "Amount must be greater than 0."
def errGroup : String := "Please select or enter a Split group name."
def errAmtOver : String := "Split amounts exceed total amount. Fix the earlier amounts."
def errPctOver : String := "Split percentages exceed 100%. Fix the earlier percentages."

/-- `validate_before_save` (`app.py` lines 599-620): accumulates error
strings in source order.  The overshoot checks recompute
`round(sum(entered[0:n-1]), 2)` from the session state and compare it
strictly against `float(amount)` (resp. `100.0`). -/
def validate_before_save (inp : SaveInput) : List String :=
  (if inp.uploaded = false then [errUpload] else []) ++
  (if inp.merchant.trim = "" then [errMerchant] else []) ++
  (if inp.amount ≤ 0 then [errAmount] else []) ++
  (if inp.scope = Scope.split then
      (if inp.splitGroupName = "" then [errGroup] else []) ++
      (if inp.splitMethod = SplitMethod.byAmount ∧
          inp.amount < round2 inp.enteredAmounts.sum then [errAmtOver] else []) ++
      (if inp.splitMethod = SplitMethod.byPercent ∧
          (100 : ℚ) < round2 inp.enteredPcts.sum then [errPctOver] else [])
    else [])

/-- The split-line rows appended at save time (`app.py` lines 679-689),
keeping the two persisted numeric cells `(split_amount, split_percent)`.
For `By percent`, each row persists `float(amount) * pct_val / 100.0`
(no rounding) together with the percent; the other methods persist the
allocated amount with an empty percent cell. -/
def split_rows (inp : SaveInput) : List (ℚ × Option ℚ) :=
  match inp.splitMethod with
  | SplitMethod.byPercent =>
      (byPercentPcts inp.enteredPcts).map (fun pct => (inp.amount * pct / 100, some pct))
  | SplitMethod.byAmount =>
      (byAmountShares inp.amount inp.enteredAmounts).map (fun amt => (amt, none))
  | SplitMethod.equal =>
      (equalShares inp.amount inp.numSplits).map (fun amt => (amt, none))

/-- One persistence step performed by the Save handler. -/
inductive PersistStep where
  | uploadDocument
  | appendReceiptRow
  | appendSplitRows (rows : List (ℚ × Option ℚ))
deriving DecidableEq

/-- The Save button block (`app.py` lines 630-689): run
`validate_before_save`; on any error, show the errors and `st.stop()`
(no persistence step runs); otherwise upload the document, append the
receipt row, and — for Split scope — append the split-line rows. -/
def saveHandler (inp : SaveInput) : List String × List PersistStep :=
  let errs := validate_before_save inp
  if errs = [] then
    ([], [PersistStep.uploadDocument, PersistStep.appendReceiptRow] ++
      (if inp.scope = Scope.split then [PersistStep.appendSplitRows (split_rows inp)] else []))
  else (errs, [])

/-! ## Interactive overshoot warnings (`app.py` lines 531-532, 580-581) -/

/-- Interactive warning shown while editing a By-amount split
(`app.py` line 531): `prev_sum > total_amount`, with
`prev_sum = round(sum(session[0:n-1]), 2)` (set in the loop's last
iteration, which always runs since `num_splits ≥ 1`). -/
def byAmountWarn (total : ℚ) (entered : List ℚ) : Prop :=
  total < round2 entered.sum

/-- Interactive warning shown while editing a By-percent split
(`app.py` line 580): `prev_pct > 100.0`. -/
def byPercentWarn (entered : List ℚ) : Prop :=
  (100 : ℚ) < round2 entered.sum

/-! ## Read-side split breakdown (`tab_history`, `app.py` lines 763-789) -/

/-- One row of the `splits` tab as the history view sees it.  A numeric
cell is `some q` when Python's `float()` parses it and `none` when the
cell is missing or non-numeric. -/
structure SplitItem where
  split_to : String
  split_amount : Option ℚ
  split_percent : Option ℚ

/-- `safe_float` (`app.py` lines 54-58): `float(x)` with any parse failure
returning the default (`0.0`). -/
def safe_float (x : Option ℚ) (default : ℚ := 0) : ℚ :=
  match x with
  | some v => v
  | none => default

/-- The accumulation loop of the split breakdown (`app.py` lines 767-775):
`sum_amt += safe_float(it.get("split_amount", 0))`;
`sum_pct += safe_float(pct, 0.0)`. -/
def breakdown_sums (items : List SplitItem) : ℚ × ℚ :=
  items.foldl
    (fun acc it => (acc.1 + safe_float it.split_amount, acc.2 + safe_float it.split_percent))
    (0, 0)

/-- `remaining` of the split breakdown (`app.py` lines 783-785):
`remaining = round(total - sum_amt, 2); if remaining < 0: remaining = 0.0`. -/
def remaining_balance (total : ℚ) (items : List SplitItem) : ℚ :=
  let r := round2 (total - (breakdown_sums items).1)
  if r < 0 then 0 else r

/-! ## Claim theorems -/

/-- C1: Equal policy — for every `total > 0` and `n ≥ 1`, the allocator
computes each share as `total/n` rounded to 2 decimals and then adds the
signed remainder `total − n × rounded_share` (itself rounded to 2 decimals)
to the first participant's share, so the `n` shares sum to `total` exactly
to 2 decimals (`round2 total`; equal to `total` itself whenever `total` is
a 2-decimal amount). -/
theorem C1_equal_split_sums_to_total (total : ℚ) (n : ℕ)
    (hpos : 0 < total) (hn : 1 ≤ n) :
    equalShares total n =
      round2 (round2 (total / (n : ℚ)) +
          round2 (total - (List.replicate n (round2 (total / (n : ℚ)))).sum)) ::
        List.replicate (n - 1) (round2 (total / (n : ℚ))) ∧
    (equalShares total n).sum = round2 total ∧
    (IsCents total → (equalShares total n).sum = total) := by
  obtain ⟨m, rfl⟩ : ∃ m, n = m + 1 := ⟨n - 1, (Nat.succ_pred_eq_of_pos hn).symm⟩
  have hshape : equalShares total (m + 1) =
      round2 (round2 (total / ((m + 1 : ℕ) : ℚ)) +
          round2 (total - (List.replicate (m + 1) (round2 (total / ((m + 1 : ℕ) : ℚ)))).sum)) ::
        List.replicate m (round2 (total / ((m + 1 : ℕ) : ℚ))) := by
    rw [equalShares, if_pos hpos]
    rfl
  have hsum : (equalShares total (m + 1)).sum = round2 total := by
    set per := round2 (total / ((m + 1 : ℕ) : ℚ)) with hper
    have hsum_rep : ∀ k : ℕ, (List.replicate k per).sum = (k : ℚ) * per := by
      intro k
      rw [List.sum_replicate, nsmul_eq_mul]
    have hcents_per : IsCents per := isCents_round2 _
    have hcents_mul : IsCents (((m + 1 : ℕ) : ℚ) * per) := isCents_nat_mul _ hcents_per
    have hrem : round2 (total - (List.replicate (m + 1) per).sum) =
        round2 total - ((m + 1 : ℕ) : ℚ) * per := by
      rw [hsum_rep, round2_sub_cents _ hcents_mul]
    have hfirst : round2 (per + (round2 total - ((m + 1 : ℕ) : ℚ) * per)) =
        per + (round2 total - ((m + 1 : ℕ) : ℚ) * per) :=
      round2_eq_self (isCents_add hcents_per
        (isCents_sub (isCents_round2 _) hcents_mul))
    rw [hshape, List.sum_cons, hrem, hfirst, hsum_rep]
    push_cast
    ring
  exact ⟨by simpa using hshape, hsum, fun hc => by rw [hsum, round2_eq_self hc]⟩

/-- Witness for C1 at `total = 100`, `n = 3` (Scenario A of the spec). -/
theorem C1_witness :
    (0 : ℚ) < 100 ∧ 1 ≤ 3 ∧ (equalShares 100 3).sum = 100 :=
  ⟨by norm_num, by norm_num,
    (C1_equal_split_sums_to_total 100 3 (by norm_num) (by norm_num)).2.2
      ⟨10000, by norm_num⟩⟩

/-- C9 counterexample: at `total = 0`, `n = 3`, the Equal branch is guarded
by `if total_amount > 0`, so it produces the empty list — not three zero
shares as the claim states. -/
theorem C9_counterexample :
    equalShares 0 3 = [] ∧ equalShares 0 3 ≠ List.replicate 3 (0 : ℚ) := by
  constructor
  · norm_num [equalShares]
  · norm_num [equalShares]

/-- C9 (amended): when `total = 0` under the Equal policy the allocator
produces no shares at all — the `total_amount > 0` guard skips the
computation and the splits list stays empty, for every `n`. -/
theorem C9_zero_total_equal_empty (n : ℕ) : equalShares 0 n = [] := by
  norm_num [equalShares]

/-- C2: ByAmount policy — the last participant's share is computed, not
entered, as `max(0, round2(total − round2(Σ entered)))`; whenever the
entered amounts (2-decimal, non-negative values) sum to at most `total`
(itself 2-decimal), the last share equals `total − Σ entered` and the `n`
shares sum to `total`. -/
theorem C2_by_amount_last_share (total : ℚ) (entered : List ℚ)
    (htot : IsCents total) (hc : ∀ a ∈ entered, IsCents a)
    (hnn : ∀ a ∈ entered, 0 ≤ a) (hle : entered.sum ≤ total) :
    byAmountShares total entered = entered ++ [total - entered.sum] ∧
    (byAmountShares total entered).sum = total := by
  have hcs : IsCents entered.sum := isCents_sum hc
  have h1 : round2 entered.sum = entered.sum := round2_eq_self hcs
  have h2 : round2 (total - entered.sum) = total - entered.sum :=
    round2_eq_self (isCents_sub htot hcs)
  have h3 : ¬ (total - entered.sum < 0) := by linarith
  have hshape : byAmountShares total entered = entered ++ [total - entered.sum] := by
    rw [byAmountShares]
    simp only [h1, h2, if_neg h3]
  refine ⟨hshape, ?_⟩
  rw [hshape, List.sum_append, List.sum_cons, List.sum_nil]
  ring

/-- Witness for C2 at `total = 100`, entered `[30]` (Scenario B of the
spec): shares `[30, 70]` summing to `100`. -/
theorem C2_witness :
    byAmountShares 100 [30] = [30, (70 : ℚ)] ∧ (byAmountShares 100 [30]).sum = 100 := by
  have h := C2_by_amount_last_share 100 [30] ⟨10000, by norm_num⟩
    (by intro a ha; rw [List.mem_singleton] at ha; exact ⟨3000, by rw [ha]; norm_num⟩)
    (by intro a ha; rw [List.mem_singleton] at ha; rw [ha]; norm_num)
    (by norm_num)
  refine ⟨?_, h.2⟩
  rw [h.1]
  norm_num

/-- C3 counterexample: at `total = 1` with one entered percent `12.3`
(`n = 2`), the save handler persists `share_amount = 1 × 12.3 / 100 = 0.123`
unrounded, while the claim's `round(total × percent / 100, 2)` is `0.12`. -/
theorem C3_counterexample :
    split_rows ⟨true, "M", 1, Scope.split, "G", SplitMethod.byPercent, 2, [], [123/10]⟩ =
      [((123 : ℚ) / 1000, some ((123 : ℚ) / 10)), ((877 : ℚ) / 1000, some ((877 : ℚ) / 10))] ∧
    round2 ((1 : ℚ) * (123 / 10) / 100) = 12 / 100 ∧
    ((123 : ℚ) / 1000) ≠ 12 / 100 := by
  have h1 : round2 (((123 : ℚ) / 10)) = 123 / 10 := by
    rw [round2_eval]; norm_num [Rat.floor_intCast_div_natCast]
  have h2 : round2 ((100 : ℚ) - 123 / 10) = 877 / 10 := by
    rw [round2_eval]; norm_num [Rat.floor_intCast_div_natCast]
  refine ⟨?_, ?_, by norm_num⟩
  · have hpcts : byPercentPcts [123 / 10] = [(123 : ℚ) / 10, 877 / 10] := by
      rw [byPercentPcts]
      simp only [List.sum_cons, List.sum_nil, add_zero, h1, h2]
      norm_num
    simp only [split_rows, hpcts, List.map_cons, List.map_nil]
    norm_num
  · rw [round2_eval]; norm_num [Rat.floor_intCast_div_natCast]

/-- C3 (amended): ByPercent policy — for 2-decimal entered percents in
`[0,100]` summing to at most `100`, the last percent is computed as
`100 − Σ entered` (the clamp to `0` never fires), all percents sum to
exactly `100`, and each persisted `share_amount` equals
`total × percent / 100` exactly — without rounding to 2 decimals. -/
theorem C3_by_percent (entered : List ℚ) (inp : SaveInput)
    (hc : ∀ p ∈ entered, IsCents p) (hrange : ∀ p ∈ entered, 0 ≤ p ∧ p ≤ 100)
    (hle : entered.sum ≤ 100)
    (hm : inp.splitMethod = SplitMethod.byPercent) (hps : inp.enteredPcts = entered) :
    byPercentPcts entered = entered ++ [100 - entered.sum] ∧
    (byPercentPcts entered).sum = 100 ∧
    split_rows inp =
      (byPercentPcts entered).map (fun pct => (inp.amount * pct / 100, some pct)) := by
  have hcs : IsCents entered.sum := isCents_sum hc
  have h1 : round2 entered.sum = entered.sum := round2_eq_self hcs
  have h2 : round2 ((100 : ℚ) - entered.sum) = 100 - entered.sum :=
    round2_eq_self (isCents_sub ⟨10000, by norm_num⟩ hcs)
  have h3 : ¬ ((100 : ℚ) - entered.sum < 0) := by linarith
  have hshape : byPercentPcts entered = entered ++ [100 - entered.sum] := by
    rw [byPercentPcts]
    simp only [h1, h2, if_neg h3]
  refine ⟨hshape, ?_, ?_⟩
  · rw [hshape, List.sum_append, List.sum_cons, List.sum_nil]
    ring
  · obtain ⟨u, mer, amt, sc, g, meth, ns, eas, eps⟩ := inp
    simp only at hm hps
    rw [hm, hps]
    rfl

/-- Witness for C3 at `total = 50`, entered `[40]` (Scenario D of the
spec): percents `[40, 60]`, persisted rows `[(20, 40%), (30, 60%)]`. -/
theorem C3_witness :
    byPercentPcts [40] = [(40 : ℚ), 60] ∧ (byPercentPcts [40]).sum = 100 ∧
    split_rows ⟨true, "M", 50, Scope.split, "G", SplitMethod.byPercent, 2, [], [40]⟩ =
      [((20 : ℚ), some (40 : ℚ)), ((30 : ℚ), some (60 : ℚ))] := by
  have h := C3_by_percent [40]
    ⟨true, "M", 50, Scope.split, "G", SplitMethod.byPercent, 2, [], [40]⟩
    (by intro p hp; rw [List.mem_singleton] at hp; exact ⟨4000, by rw [hp]; norm_num⟩)
    (by intro p hp; rw [List.mem_singleton] at hp; rw [hp]; norm_num)
    (by norm_num) rfl rfl
  have hpcts : byPercentPcts [40] = [(40 : ℚ), 60] := by
    rw [h.1]; norm_num
  refine ⟨hpcts, h.2.1, ?_⟩
  rw [h.2.2, hpcts]
  norm_num

/-- C4: overshoot handling — with 2-decimal inputs, whenever the entered
ByAmount amounts (excluding the last) sum above `total`, every Split-scope
save attempt carrying them gets the overshoot error from
`validate_before_save` and the computed last share clamps to `0`; likewise
for ByPercent when the entered percents sum above `100`. -/
theorem C4_overshoot_blocks_and_clamps (total : ℚ) (as ps : List ℚ)
    (htot : IsCents total) (hca : ∀ a ∈ as, IsCents a) (hcp : ∀ p ∈ ps, IsCents p) :
    (total < as.sum →
      (∀ inp : SaveInput, inp.scope = Scope.split →
        inp.splitMethod = SplitMethod.byAmount →
        inp.amount = total → inp.enteredAmounts = as →
        errAmtOver ∈ validate_before_save inp) ∧
      (byAmountShares total as).getLast? = some 0) ∧
    (100 < ps.sum →
      (∀ inp : SaveInput, inp.scope = Scope.split →
        inp.splitMethod = SplitMethod.byPercent → inp.enteredPcts = ps →
        errPctOver ∈ validate_before_save inp) ∧
      (byPercentPcts ps).getLast? = some 0) := by
  constructor
  · intro hlt
    have hcs : IsCents as.sum := isCents_sum hca
    have h1 : round2 as.sum = as.sum := round2_eq_self hcs
    constructor
    · intro inp hsc hm hamt has
      rw [validate_before_save]
      have hcond : inp.splitMethod = SplitMethod.byAmount ∧
          inp.amount < round2 inp.enteredAmounts.sum :=
        ⟨hm, by rw [hamt, has, h1]; exact hlt⟩
      rw [if_pos hsc, if_pos hcond]
      simp [List.mem_append]
    · have h2 : round2 (total - as.sum) = total - as.sum :=
        round2_eq_self (isCents_sub htot hcs)
      have h3 : total - as.sum < 0 := by linarith
      rw [byAmountShares]
      simp only [h1, h2, if_pos h3]
      rw [List.getLast?_append_cons]
      rfl
  · intro hlt
    have hcs : IsCents ps.sum := isCents_sum hcp
    have h1 : round2 ps.sum = ps.sum := round2_eq_self hcs
    constructor
    · intro inp hsc hm hps
      rw [validate_before_save]
      have hcond : inp.splitMethod = SplitMethod.byPercent ∧
          (100 : ℚ) < round2 inp.enteredPcts.sum :=
        ⟨hm, by rw [hps, h1]; exact hlt⟩
      rw [if_pos hsc, if_pos hcond]
      simp [List.mem_append]
    · have h2 : round2 ((100 : ℚ) - ps.sum) = 100 - ps.sum :=
        round2_eq_self (isCents_sub ⟨10000, by norm_num⟩ hcs)
      have h3 : (100 : ℚ) - ps.sum < 0 := by linarith
      rw [byPercentPcts]
      simp only [h1, h2, if_pos h3]
      rw [List.getLast?_append_cons]
      rfl

/-- Witness for C4 at `total = 100`, entered amounts `[150]` (Scenario C)
and entered percents `[120]`: the validator reports both overshoot errors
and both computed last entries clamp to `0`. -/
theorem C4_witness :
    (errAmtOver ∈ validate_before_save
        ⟨true, "M", 100, Scope.split, "G", SplitMethod.byAmount, 2, [150], []⟩ ∧
      (byAmountShares 100 [150]).getLast? = some 0) ∧
    (errPctOver ∈ validate_before_save
        ⟨true, "M", 100, Scope.split, "G", SplitMethod.byPercent, 2, [], [120]⟩ ∧
      (byPercentPcts [120]).getLast? = some 0) := by
  have h := C4_overshoot_blocks_and_clamps 100 [150] [120]
    ⟨10000, by norm_num⟩
    (by intro a ha; rw [List.mem_singleton] at ha; exact ⟨15000, by rw [ha]; norm_num⟩)
    (by intro p hp; rw [List.mem_singleton] at hp; exact ⟨12000, by rw [hp]; norm_num⟩)
  have hA := h.1 (by norm_num)
  have hP := h.2 (by norm_num)
  exact ⟨⟨hA.1 _ rfl rfl rfl rfl, hA.2⟩, ⟨hP.1 _ rfl rfl rfl, hP.2⟩⟩

/-- C5: `to_myr` returns the amount unchanged for the base currency `MYR`
whatever the rate table; for a non-base currency it fails with the
missing-rate error exactly when the rate is absent or numerically zero, and
otherwise returns `amount / rate`. -/
theorem C5_to_myr_contract (amount : ℚ) (currency : String)
    (rates : List (String × ℚ)) (hne : currency ≠ "MYR") :
    to_myr amount "MYR" rates = Except.ok amount ∧
    (to_myr amount currency rates = Except.error (missingRateError currency) ↔
      rates.lookup currency = none ∨ rates.lookup currency = some 0) ∧
    (∀ rate : ℚ, rates.lookup currency = some rate → rate ≠ 0 →
      to_myr amount currency rates = Except.ok (amount / rate)) := by
  refine ⟨by rw [to_myr, if_pos rfl], ?_, ?_⟩
  · rw [to_myr, if_neg hne]
    cases hl : rates.lookup currency with
    | none => simp
    | some rate =>
        by_cases hz : rate = 0
        · simp [hz]
        · simp [hz]
  · intro rate hl hz
    rw [to_myr, if_neg hne, hl]
    simp [hz]

/-- Witness for C5 (Scenario E): `amount = 10`, rate table `{USD ↦ 4.2}`;
conversion gives `10 / 4.2`, the base currency passes through, and the
empty table fails with the missing-rate error. -/
theorem C5_witness :
    "USD" ≠ "MYR" ∧
    to_myr 10 "MYR" [("USD", 21 / 5)] = Except.ok 10 ∧
    to_myr 10 "USD" [] = Except.error (missingRateError "USD") ∧
    to_myr 10 "USD" [("USD", 21 / 5)] = Except.ok (10 / (21 / 5)) := by
  have hne : "USD" ≠ "MYR" := by decide
  refine ⟨hne, (C5_to_myr_contract 10 "USD" [("USD", 21 / 5)] hne).1, ?_, ?_⟩
  · exact (C5_to_myr_contract 10 "USD" [] hne).2.1.mpr (Or.inl rfl)
  · exact (C5_to_myr_contract 10 "USD" [("USD", 21 / 5)] hne).2.2 (21 / 5)
      (by simp [List.lookup]) (by norm_num)

/-- C6: validation atomicity — whenever `validate_before_save` reports any
error, the Save handler stops before persistence: no document upload, no
receipt row, no split-line rows. -/
theorem C6_validation_blocks_persistence (inp : SaveInput)
    (h : validate_before_save inp ≠ []) :
    saveHandler inp = (validate_before_save inp, []) ∧
    PersistStep.uploadDocument ∉ (saveHandler inp).2 ∧
    PersistStep.appendReceiptRow ∉ (saveHandler inp).2 ∧
    ∀ rows, PersistStep.appendSplitRows rows ∉ (saveHandler inp).2 := by
  have hs : saveHandler inp = (validate_before_save inp, []) := by
    rw [saveHandler]
    simp [h]
  exact ⟨hs, by rw [hs]; simp, by rw [hs]; simp, fun rows => by rw [hs]; simp⟩

/-- Witness for C6: a save attempt with no uploaded document is blocked
with no persistence steps. -/
theorem C6_witness :
    validate_before_save ⟨false, "M", 5, Scope.receipt, "", SplitMethod.equal, 1, [], []⟩ ≠ [] ∧
    saveHandler ⟨false, "M", 5, Scope.receipt, "", SplitMethod.equal, 1, [], []⟩ =
      (validate_before_save ⟨false, "M", 5, Scope.receipt, "", SplitMethod.equal, 1, [], []⟩, []) := by
  have h : validate_before_save
      ⟨false, "M", 5, Scope.receipt, "", SplitMethod.equal, 1, [], []⟩ ≠ [] := by
    rw [validate_before_save]
    simp
  exact ⟨h, (C6_validation_blocks_persistence _ h).1⟩

theorem mem_ite_singleton {c : Prop} [Decidable c] {e x : String} :
    (x ∈ if c then [e] else []) ↔ c ∧ x = e := by
  by_cases h : c <;> simp [h]

set_option maxHeartbeats 1000000 in
/-- C8: warn/block agreement — for a Split-scope save, the pre-save
validator emits the ByAmount (resp. ByPercent) overshoot error exactly when
the interactive editing warning for that policy fires, both evaluating
`round(sum(entered[0:n-1]), 2) > total` (resp. `> 100`); under the Equal
policy neither a warning nor a block exists. -/
theorem C8_warn_iff_block (inp : SaveInput) (hsc : inp.scope = Scope.split) :
    (errAmtOver ∈ validate_before_save inp ↔
      inp.splitMethod = SplitMethod.byAmount ∧
        byAmountWarn inp.amount inp.enteredAmounts) ∧
    (errPctOver ∈ validate_before_save inp ↔
      inp.splitMethod = SplitMethod.byPercent ∧ byPercentWarn inp.enteredPcts) ∧
    (inp.splitMethod = SplitMethod.equal →
      errAmtOver ∉ validate_before_save inp ∧
      errPctOver ∉ validate_before_save inp) := by
  have hmem : ∀ x : String, x ∈ validate_before_save inp ↔
      ((inp.uploaded = false ∧ x = errUpload) ∨
        (inp.merchant.trim = "" ∧ x = errMerchant) ∨
        (inp.amount ≤ 0 ∧ x = errAmount) ∨
        (inp.splitGroupName = "" ∧ x = errGroup) ∨
        ((inp.splitMethod = SplitMethod.byAmount ∧
            inp.amount < round2 inp.enteredAmounts.sum) ∧ x = errAmtOver) ∨
        ((inp.splitMethod = SplitMethod.byPercent ∧
            (100 : ℚ) < round2 inp.enteredPcts.sum) ∧ x = errPctOver)) := by
    intro x
    rw [validate_before_save, if_pos hsc]
    simp only [List.mem_append, mem_ite_singleton]
    tauto
  have hstrings : errAmtOver ≠ errUpload ∧ errAmtOver ≠ errMerchant ∧
      errAmtOver ≠ errAmount ∧ errAmtOver ≠ errGroup ∧ errAmtOver ≠ errPctOver ∧
      errPctOver ≠ errUpload ∧ errPctOver ≠ errMerchant ∧
      errPctOver ≠ errAmount ∧ errPctOver ≠ errGroup := by
    refine ⟨?_, ?_, ?_, ?_, ?_, ?_, ?_, ?_, ?_⟩ <;>
      simp [errUpload, errMerchant, errAmount, errGroup, errAmtOver, errPctOver]
  obtain ⟨d1, d2, d3, d4, d5, d6, d7, d8, d9⟩ := hstrings
  refine ⟨?_, ?_, ?_⟩
  · rw [hmem errAmtOver, byAmountWarn]
    tauto
  · rw [hmem errPctOver, byPercentWarn]
    tauto
  · intro he
    have hA : inp.splitMethod ≠ SplitMethod.byAmount := by rw [he]; intro hx; cases hx
    have hP : inp.splitMethod ≠ SplitMethod.byPercent := by rw [he]; intro hx; cases hx
    constructor
    · rw [hmem errAmtOver]
      tauto
    · rw [hmem errPctOver]
      tauto

/-- Witness for C8: a Split-scope By-amount input with entered amounts
`[150]` against `total = 100` — the warning fires and the validator blocks;
with entered amounts `[30]` neither fires. -/
theorem C8_witness :
    ((errAmtOver ∈ validate_before_save
        ⟨true, "M", 100, Scope.split, "G", SplitMethod.byAmount, 2, [150], []⟩) ↔
      (SplitMethod.byAmount = SplitMethod.byAmount ∧ byAmountWarn 100 [150])) ∧
    ((errAmtOver ∈ validate_before_save
        ⟨true, "M", 100, Scope.split, "G", SplitMethod.byAmount, 2, [30], []⟩) ↔
      (SplitMethod.byAmount = SplitMethod.byAmount ∧ byAmountWarn 100 [30])) :=
  ⟨(C8_warn_iff_block
      ⟨true, "M", 100, Scope.split, "G", SplitMethod.byAmount, 2, [150], []⟩ rfl).1,
    (C8_warn_iff_block
      ⟨true, "M", 100, Scope.split, "G", SplitMethod.byAmount, 2, [30], []⟩ rfl).1⟩

theorem breakdown_sums_go (items : List SplitItem) (a b : ℚ) :
    items.foldl
        (fun acc it =>
          (acc.1 + safe_float it.split_amount, acc.2 + safe_float it.split_percent))
        (a, b) =
      (a + (items.map fun it => safe_float it.split_amount).sum,
        b + (items.map fun it => safe_float it.split_percent).sum) := by
  induction items generalizing a b with
  | nil => simp
  | cons it l ih => simp [List.foldl_cons, ih, add_assoc]

theorem breakdown_sums_eq (items : List SplitItem) :
    breakdown_sums items =
      ((items.map fun it => safe_float it.split_amount).sum,
        (items.map fun it => safe_float it.split_percent).sum) := by
  rw [breakdown_sums, breakdown_sums_go]
  simp

/-- C7 counterexample: a persisted receipt with `amount = 1` and a single
split line of `0.996` — the code first rounds `1 − 0.996 = 0.004` to two
decimals, giving `remaining = 0`, while the claim's
`max(0, amount − sum)` is `0.004`. -/
theorem C7_counterexample :
    remaining_balance 1 [⟨"A", some (996 / 1000), none⟩] = 0 ∧
    max 0 ((1 : ℚ) - (breakdown_sums [⟨"A", some (996 / 1000), none⟩]).1) = 1 / 250 ∧
    (0 : ℚ) ≠ 1 / 250 := by
  have hsum : (breakdown_sums [⟨"A", some (996 / 1000), none⟩]).1 = 996 / 1000 := by
    rw [breakdown_sums_eq]
    simp [safe_float]
  have hr : round2 ((1 : ℚ) - 996 / 1000) = 0 := by
    rw [round2_eval]; norm_num [Rat.floor_intCast_div_natCast]
  refine ⟨?_, ?_, by norm_num⟩
  · rw [remaining_balance]
    simp only [hsum, hr]
    norm_num
  · rw [hsum]
    norm_num

/-- C7 (amended): the read-side breakdown computes
`remaining = max(0, round2(receipt.amount − sum_amount))` — the difference
is rounded to 2 decimals before the clamp.  Whenever the splits overshoot
(`sum_amount > amount`) remaining is `0`, never negative; and whenever they
do not overshoot and amount and shares are 2-decimal values,
`sum_amount + remaining = receipt.amount`. -/
theorem C7_breakdown_remaining (total : ℚ) (items : List SplitItem) :
    remaining_balance total items =
      max 0 (round2 (total - (breakdown_sums items).1)) ∧
    (total < (breakdown_sums items).1 → remaining_balance total items = 0) ∧
    (IsCents total → (∀ it ∈ items, IsCents (safe_float it.split_amount)) →
      (breakdown_sums items).1 ≤ total →
      (breakdown_sums items).1 + remaining_balance total items = total) := by
  set s := (breakdown_sums items).1 with hs
  have hmax : remaining_balance total items = max 0 (round2 (total - s)) := by
    rw [remaining_balance]
    by_cases h : round2 (total - s) < 0
    · rw [if_pos h, eq_comm, max_eq_left (le_of_lt h)]
    · rw [if_neg h, eq_comm, max_eq_right (not_lt.mp h)]
  have hcents_s : (∀ it ∈ items, IsCents (safe_float it.split_amount)) → IsCents s := by
    intro hall
    rw [hs, breakdown_sums_eq]
    exact isCents_sum (by
      intro x hx
      rw [List.mem_map] at hx
      obtain ⟨it, hit, rfl⟩ := hx
      exact hall it hit)
  refine ⟨hmax, ?_, ?_⟩
  · intro hover
    rw [hmax, max_eq_left (round2_nonpos (by linarith))]
  · intro htot hall hle
    have hrs : round2 (total - s) = total - s :=
      round2_eq_self (isCents_sub htot (hcents_s hall))
    rw [hmax, hrs, max_eq_right (by linarith)]
    ring

/-- Witness for C7: `amount = 100` with split lines `[40, 60]` — no
overshoot, so `sum_amount + remaining = 100`; and with lines `[70, 60]` —
overshoot, so `remaining = 0`. -/
theorem C7_witness :
    (breakdown_sums [⟨"A", some 40, none⟩, ⟨"B", some 60, none⟩]).1 +
        remaining_balance 100 [⟨"A", some 40, none⟩, ⟨"B", some 60, none⟩] = 100 ∧
    remaining_balance 100 [⟨"A", some 70, none⟩, ⟨"B", some 60, none⟩] = 0 := by
  constructor
  · refine (C7_breakdown_remaining 100 _).2.2 ⟨10000, by norm_num⟩ ?_ ?_
    · intro it hit
      rw [List.mem_cons, List.mem_singleton] at hit
      rcases hit with rfl | rfl
      · exact ⟨4000, by norm_num [safe_float]⟩
      · exact ⟨6000, by norm_num [safe_float]⟩
    · rw [breakdown_sums_eq]
      norm_num [safe_float]
  · refine (C7_breakdown_remaining 100 _).2.1 ?_
    rw [breakdown_sums_eq]
    norm_num [safe_float]

/-- C10: breakdown totality — the breakdown's accumulated `sum_amt` and
`sum_pct` are total functions of the persisted rows: they equal the sums of
`safe_float` over each row's `split_amount` / `split_percent` cells, a
malformed (unparseable or missing) cell contributes `0` via `safe_float`,
and deleting a row whose amount cell is malformed leaves `sum_amt`
unchanged. -/
theorem C10_breakdown_totality (items : List SplitItem) :
    (breakdown_sums items).1 = (items.map fun it => safe_float it.split_amount).sum ∧
    (breakdown_sums items).2 = (items.map fun it => safe_float it.split_percent).sum ∧
    (∀ it : SplitItem, it.split_amount = none → safe_float it.split_amount = 0) ∧
    (∀ pre post : List SplitItem, ∀ it : SplitItem, it.split_amount = none →
      (breakdown_sums (pre ++ it :: post)).1 = (breakdown_sums (pre ++ post)).1) := by
  refine ⟨by rw [breakdown_sums_eq], by rw [breakdown_sums_eq], ?_, ?_⟩
  · intro it hnone
    rw [hnone]
    rfl
  · intro pre post it hnone
    rw [breakdown_sums_eq, breakdown_sums_eq]
    simp only [List.map_append, List.map_cons, List.sum_append, List.sum_cons, hnone]
    simp [safe_float]

/-- Witness for C10: a well-formed row of `2` followed by a malformed row —
`sum_amt = 2`, and dropping the malformed row leaves `sum_amt` unchanged. -/
theorem C10_witness :
    (breakdown_sums [⟨"A", some 2, none⟩, ⟨"B", none, none⟩]).1 = 2 ∧
    safe_float (⟨"B", none, none⟩ : SplitItem).split_amount = 0 ∧
    (breakdown_sums ([⟨"A", some 2, none⟩] ++ (⟨"B", none, none⟩ : SplitItem) :: [])).1 =
      (breakdown_sums ([⟨"A", some 2, none⟩] ++ [])).1 := by
  have h := C10_breakdown_totality [⟨"A", some 2, none⟩, ⟨"B", none, none⟩]
  refine ⟨?_, h.2.2.1 ⟨"B", none, none⟩ rfl, h.2.2.2 [⟨"A", some 2, none⟩] [] ⟨"B", none, none⟩ rfl⟩
  rw [h.1]
  norm_num [safe_float]

end Jasmine
